import Mathlib

/-!
Shallow embedding of the PromptLens prompt/output diffing and heuristic
explanation module: `computeWordDiff` and `computeSegmentChanges` from
`src/components/FeedbackForm.tsx`, `diffWords` from
`src/components/WhatIfEditor.tsx`, and `clientSegmentPrompt`,
`clientExplainText`, `clientExplainImage` from the API client module.
JS numbers are modelled as rationals, JS strings as Lean strings, and the
impure ingredients (`Math.random`, `generateSegmentId`, `Math.cos`,
`Math.sin`, `new Date().toISOString()`) as an explicit environment of
oracle functions.
-/

namespace PromptLens

/-- JS whitespace (the regex class `\s`, restricted to the characters that
actually occur in prompts: ASCII whitespace plus NBSP). -/
def isJsWs (c : Char) : Bool :=
  c = ' ' || c = '\t' || c = '\n' || c = '\r' || c = '\x0b' || c = '\x0c' || c = ' '

/-- Sentence delimiter class `[.!?]` used by `clientExplainText`. -/
def isSentSep (c : Char) : Bool :=
  c = '.' || c = '!' || c = '?'

/-- JS `String.prototype.split` on a regex `P+` for a character class `P`:
splits on maximal runs of `P`-characters, keeping empty pieces at the two
ends (`"".split` is `[""]`, `" a ".split(/\s+/)` is `["", "a", ""]`). -/
def splitRunsAux (p : Char → Bool) : List Char → List String
  | [] => [""]
  | c :: cs =>
    let r := splitRunsAux p cs
    if p c then
      match cs with
      | [] => "" :: r
      | c2 :: _ => if p c2 then r else "" :: r
    else
      match r with
      | t :: ts => String.mk (c :: t.data) :: ts
      | [] => [String.mk [c]]

def splitRuns (p : Char → Bool) (s : String) : List String :=
  splitRunsAux p s.data

/-- `text.split(/\s+/)` as used by `computeWordDiff` and `clientExplainText`. -/
def splitWs (s : String) : List String :=
  splitRuns isJsWs s

/-- JS `String.prototype.split` on a single literal character, e.g.
`text.split(' ')` (`"a  b".split(" ")` is `["a", "", "b"]`). -/
def jsSplitCharAux (sep : Char) (acc : List Char) : List Char → List String
  | [] => [String.mk acc.reverse]
  | c :: cs =>
    if c = sep then String.mk acc.reverse :: jsSplitCharAux sep [] cs
    else jsSplitCharAux sep (c :: acc) cs

def jsSplitChar (sep : Char) (s : String) : List String :=
  jsSplitCharAux sep [] s.data

/-- The `WordDiff.type` union `'added' | 'removed' | 'unchanged'`. -/
inductive WDType where
  | added
  | removed
  | unchanged
deriving DecidableEq, Repr

/-- The `WordDiff` record of `FeedbackForm.tsx`. -/
structure WordDiff where
  text : String
  type : WDType
deriving DecidableEq, Repr

/-- The cursor loop of `computeWordDiff`, expressed on the suffixes of the
two word arrays that start at the cursors `i` and `j`; `Array.indexOf(w, k)`
relative to the cursor becomes `List.findIdx?` on the suffix. -/
def computeWordDiffAux : List String → List String → List WordDiff
  | [], [] => []
  | [], n :: ns => ⟨n, .added⟩ :: computeWordDiffAux [] ns
  | o :: os, [] => ⟨o, .removed⟩ :: computeWordDiffAux os []
  | o :: os, n :: ns =>
    if o = n then
      ⟨o, .unchanged⟩ :: computeWordDiffAux os ns
    else
      match (o :: os).findIdx? (· == n), (n :: ns).findIdx? (· == o) with
      | some dNewInOld, some dOldInNew =>
        if dNewInOld < dOldInNew then
          ⟨o, .removed⟩ :: computeWordDiffAux os (n :: ns)
        else
          ⟨n, .added⟩ :: computeWordDiffAux (o :: os) ns
      | some _, none => ⟨o, .removed⟩ :: computeWordDiffAux os (n :: ns)
      | none, some _ => ⟨n, .added⟩ :: computeWordDiffAux (o :: os) ns
      | none, none => ⟨o, .removed⟩ :: ⟨n, .added⟩ :: computeWordDiffAux os ns
termination_by os ns => os.length + ns.length
decreasing_by all_goals simp +arith

/-- `computeWordDiff` from `FeedbackForm.tsx`. -/
def computeWordDiff (oldText newText : String) : List WordDiff :=
  computeWordDiffAux (splitWs oldText) (splitWs newText)

/-- The diff entry type of `diffWords` in `WhatIfEditor.tsx`:
`'same' | 'added' | 'removed'`. -/
inductive DWType where
  | same
  | added
  | removed
deriving DecidableEq, Repr

structure DW where
  word : String
  type : DWType
deriving DecidableEq, Repr

/-- `diffWords` from `WhatIfEditor.tsx`: set-membership classification of
words, removed words first, then the new words tagged same/added.  The JS
`Set` membership is list membership on the word arrays. -/
def diffWords (oldText newText : String) : List DW :=
  let oldWords := jsSplitChar ' ' oldText
  let newWords := jsSplitChar ' ' newText
  (oldWords.filter (fun w => !newWords.contains w)).map (fun w => ⟨w, .removed⟩)
    ++ newWords.map (fun w =>
        if oldWords.contains w then ⟨w, .same⟩ else ⟨w, .added⟩)

/-- `s.toLowerCase()`. -/
def jsToLower (s : String) : String :=
  String.mk (s.data.map Char.toLower)

/-- `needle` occurs at the start of `l`. -/
def isPre : List Char → List Char → Bool
  | [], _ => true
  | _, [] => false
  | a :: as, b :: bs => a = b && isPre as bs

/-- JS `String.prototype.includes`: substring containment (true for the
empty needle). -/
def jsIncludes (s sub : String) : Bool :=
  (List.range (s.data.length + 1)).any (fun i => isPre sub.data (s.data.drop i))

/-- `s.substring(0, n)`. -/
def jsSubstrTake (s : String) (n : ℕ) : String :=
  String.mk (s.data.take n)

/-- `s.trim()`: strip leading and trailing whitespace. -/
def jsTrim (s : String) : String :=
  String.mk (((s.data.dropWhile isJsWs).reverse.dropWhile isJsWs).reverse)

/-- The `metadata` record of a `PromptSegment` (`api.types.ts`). -/
structure SegMetadata where
  importance : ℚ
  category : String
  color : String
  confidence : Option ℚ := none
deriving DecidableEq, Repr

/-- `PromptSegment` from `api.types.ts`; `type` ranges over the literals
`'keyword' | 'phrase' | 'semantic_chunk'`. -/
structure PromptSegment where
  id : String
  text : String
  type : String
  startIndex : ℕ
  endIndex : ℕ
  metadata : SegMetadata
deriving DecidableEq, Repr

/-- The `SegmentChange.type` union of `FeedbackForm.tsx`. -/
inductive ChangeType where
  | added
  | removed
  | modified
  | unchanged
deriving DecidableEq, Repr

/-- `SegmentChange` from `FeedbackForm.tsx`: both segment references are
optional. -/
structure SegmentChange where
  type : ChangeType
  originalSegment : Option PromptSegment := none
  newSegment : Option PromptSegment := none
deriving DecidableEq, Repr

/-- Exact-match predicate of `computeSegmentChanges`:
`n.text.toLowerCase() === orig.text.toLowerCase()`. -/
def segTextMatches (orig n : PromptSegment) : Bool :=
  jsToLower n.text == jsToLower orig.text

/-- Similarity predicate of `computeSegmentChanges`: either lowercased text
contains the first five characters of the other. -/
def segSimilar (orig n : PromptSegment) : Bool :=
  jsIncludes (jsToLower n.text) (jsSubstrTake (jsToLower orig.text) 5)
    || jsIncludes (jsToLower orig.text) (jsSubstrTake (jsToLower n.text) 5)

/-- The `originalSegments.forEach` loop of `computeSegmentChanges`, with the
`matchedNewIds` set threaded as a list of ids, followed by the trailing
`newSegments.forEach` loop that emits the `added` entries. -/
def computeSegmentChangesAux (newSegments : List PromptSegment) :
    List PromptSegment → List String → List SegmentChange
  | [], matchedNewIds =>
      (newSegments.filter (fun n => !decide (n.id ∈ matchedNewIds))).map
        (fun n => { type := .added, newSegment := some n })
  | orig :: rest, matchedNewIds =>
      match newSegments.find? (fun n => segTextMatches orig n && !decide (n.id ∈ matchedNewIds)) with
      | some m =>
          { type := .unchanged, originalSegment := some orig, newSegment := some m }
            :: computeSegmentChangesAux newSegments rest (m.id :: matchedNewIds)
      | none =>
          match newSegments.find? (fun n => !decide (n.id ∈ matchedNewIds) && segSimilar orig n) with
          | some m =>
              { type := .modified, originalSegment := some orig, newSegment := some m }
                :: computeSegmentChangesAux newSegments rest (m.id :: matchedNewIds)
          | none =>
              { type := .removed, originalSegment := some orig }
                :: computeSegmentChangesAux newSegments rest matchedNewIds

/-- `computeSegmentChanges` from `FeedbackForm.tsx`. -/
def computeSegmentChanges (originalSegments newSegments : List PromptSegment) :
    List SegmentChange :=
  computeSegmentChangesAux newSegments originalSegments []

/-- A small concrete segment used to exercise the theorems on concrete
inputs. -/
def mkSeg (i t : String) : PromptSegment :=
  { id := i, text := t, type := "keyword", startIndex := 0, endIndex := t.length,
    metadata := { importance := 1/2, category := "context", color := "#0071e3" } }

def c4Origs : List PromptSegment := [mkSeg "o1" "a cat", mkSeg "o2" "blue sky"]

def c4News : List PromptSegment := [mkSeg "n1" "a cat", mkSeg "n2" "red sky"]

/-- Number of leading whitespace characters (the greedy `\\s*` / `\\s+`). -/
def wsRunLen (cs : List Char) : ℕ :=
  (cs.takeWhile isJsWs).length

/-- The separator word alternatives `and`, `with`, `in`, `on`, `at` of the
phrase-separator regex of `clientSegmentPrompt`, in alternation order. -/
def sepWords : List (List Char) :=
  [['a', 'n', 'd'], ['w', 'i', 't', 'h'], ['i', 'n'], ['o', 'n'], ['a', 't']]

/-- Greedy match of one alternative `\\s+W\\s+` (case-insensitive) at the
head of `cs`, returning the total matched length. -/
def matchWordSep (w : List Char) (cs : List Char) : Option ℕ :=
  let k := wsRunLen cs
  if k = 0 then none
  else
    let rest := cs.drop k
    if isPre w (rest.map Char.toLower) then
      let m := wsRunLen (rest.drop w.length)
      if m = 0 then none else some (k + w.length + m)
    else none

/-- Leftmost-alternative match of the phrase-separator regex
`,\\s*|\\s+and\\s+|\\s+with\\s+|\\s+in\\s+|\\s+on\\s+|\\s+at\\s+` (flags `gi`) at
the position whose first character is `c` and remainder `cs`; returns the
total matched length, which is always at least 1. -/
def matchSepAt (c : Char) (cs : List Char) : Option ℕ :=
  if c = ',' then some (1 + wsRunLen cs)
  else (sepWords.filterMap (fun w => matchWordSep w (c :: cs))).head?

/-- JS `prompt.split(phraseSeparators)`: scan left to right, cutting at each
leftmost separator match and resuming after it.  Since every separator match
has length `len ≥ 1`, the remainder after a match at `c :: cs` is
`cs.drop (len - 1)`. -/
def jsSplitSepsAux (acc : List Char) : List Char → List String
  | [] => [String.mk acc.reverse]
  | c :: cs =>
    match matchSepAt c cs with
    | some len => String.mk acc.reverse :: jsSplitSepsAux [] (cs.drop (len - 1))
    | none => jsSplitSepsAux (c :: acc) cs
termination_by l => l.length
decreasing_by all_goals simp +arith [List.length_drop]

def jsSplitSeps (s : String) : List String :=
  jsSplitSepsAux [] s.data

/-- `hay.indexOf(needle, start)` on char lists: the least index `i ≥ start`
at which `needle` occurs in `hay`, if any. -/
def firstMatchFrom (hay needle : List Char) (start : ℕ) : Option ℕ :=
  (List.range (hay.length + 1)).find?
    (fun i => decide (start ≤ i) && isPre needle (hay.drop i))

/-- Keyword alternatives of `/style|aesthetic|cinematic|realistic|abstract|minimalist|detailed/i`. -/
def styleWords : List String :=
  ["style", "aesthetic", "cinematic", "realistic", "abstract", "minimalist", "detailed"]

/-- Keyword alternatives of `/color|light|dark|bright|shadow|glow|neon/i`. -/
def modifierWords : List String :=
  ["color", "light", "dark", "bright", "shadow", "glow", "neon"]

/-- Keyword alternatives of `/person|man|woman|child|animal|object|building|landscape/i`. -/
def subjectWords : List String :=
  ["person", "man", "woman", "child", "animal", "object", "building", "landscape"]

/-- Keyword alternatives of `/running|walking|flying|sitting|creating|making/i`. -/
def actionWords : List String :=
  ["running", "walking", "flying", "sitting", "creating", "making"]

/-- `regex.test(lowerPhrase)` for an unanchored alternation of literal
lowercase keywords applied to an already-lowercased phrase: some keyword is
a substring. -/
def matchesAny (ws : List String) (lowerPhrase : String) : Bool :=
  ws.any (fun w => jsIncludes lowerPhrase w)

/-- The category if/else-if chain of `clientSegmentPrompt`, applied to the
lowercased fragment. -/
def jsCategoryOf (lowerPhrase : String) : String :=
  if matchesAny styleWords lowerPhrase then "style"
  else if matchesAny modifierWords lowerPhrase then "modifier"
  else if matchesAny subjectWords lowerPhrase then "subject"
  else if matchesAny actionWords lowerPhrase then "action"
  else "context"

/-- Oracle environment for the impure ingredients of the client module:
`Math.random()` draws (indexed by call position within one invocation),
`generateSegmentId()` results, `Math.cos`/`Math.sin` on the JS doubles
modelled as rationals, and `new Date().toISOString()`. -/
structure JsEnv where
  rand : ℕ → ℚ
  segId : ℕ → String
  qcos : ℚ → ℚ
  qsin : ℚ → ℚ
  nowIso : String

/-- The fixed 6-color palette of `clientSegmentPrompt`. -/
def colors : List String :=
  ["#0071e3", "#00823b", "#bf5000", "#d70015", "#6366f1", "#8b5cf6"]

/-- `SegmentedPrompt` from `api.types.ts`. -/
structure SegmentedPrompt where
  originalPrompt : String
  segments : List PromptSegment
  timestamp : String
  sessionId : String

/-- The `phrases.forEach` loop of `clientSegmentPrompt`, threading the
mutable `currentIndex` and the number of segments pushed so far (which is
the value of `colorIndex` and indexes the id and importance oracles). -/
def segLoop (env : JsEnv) (prompt : String) :
    List String → ℕ → ℕ → List PromptSegment
  | [], _, _ => []
  | phrase :: rest, currentIndex, pushCount =>
    let trimmedPhrase := jsTrim phrase
    if trimmedPhrase = "" then segLoop env prompt rest currentIndex pushCount
    else
      match firstMatchFrom prompt.data trimmedPhrase.data currentIndex with
      | none => segLoop env prompt rest currentIndex pushCount
      | some startIndex =>
        { id := env.segId pushCount
          text := trimmedPhrase
          type := if 2 < (jsSplitChar ' ' trimmedPhrase).length then "phrase" else "keyword"
          startIndex := startIndex
          endIndex := startIndex + trimmedPhrase.length
          metadata :=
            { importance := 0.5 + env.rand pushCount * 0.5
              category := jsCategoryOf (jsToLower trimmedPhrase)
              color := colors.getD (pushCount % colors.length) "" } }
          :: segLoop env prompt rest (startIndex + trimmedPhrase.length) (pushCount + 1)

/-- `clientSegmentPrompt` from the API client module. -/
def clientSegmentPrompt (env : JsEnv) (prompt sessionId : String) : SegmentedPrompt :=
  let phrases := (jsSplitSeps prompt).filter (fun p => !(jsTrim p == ""))
  let segs := segLoop env prompt phrases 0 0
  { originalPrompt := prompt
    segments :=
      if segs.length = 0 then
        [{ id := env.segId 0
           text := prompt
           type := "semantic_chunk"
           startIndex := 0
           endIndex := prompt.length
           metadata := { importance := 1, category := "context", color := colors.getD 0 "" } }]
      else segs
    timestamp := env.nowIso
    sessionId := sessionId }

/-- One element of `TextExplanation.mappings` (`api.types.ts`). -/
structure TextMapping where
  segmentId : String
  segmentText : String
  outputSentenceIndex : ℕ
  outputSentenceText : String
  confidence : ℚ
  method : String
deriving DecidableEq, Repr

/-- `TextExplanation` from `api.types.ts`. -/
structure TextExplanation where
  mappings : List TextMapping
  overallConfidence : ℚ
  explanationMethod : String
deriving DecidableEq, Repr

/-- `generatedText.split(/[.!?]+/).filter(s => s.trim())` of
`clientExplainText`. -/
def sentencesOf (generatedText : String) : List String :=
  (splitRuns isSentSep generatedText).filter (fun s => !(jsTrim s == ""))

/-- The token-overlap count of `clientExplainText`: segment words that are
in bidirectional substring containment with some sentence word. -/
def overlapCount (segWords sentWords : List String) : ℕ :=
  (segWords.filter (fun w => sentWords.any (fun sw => jsIncludes sw w || jsIncludes w sw))).length

/-- The inner `sentences.forEach` loop of `clientExplainText` for one
segment, accumulating mappings and the `Math.random()` call counter. -/
def sentLoop (env : JsEnv) (seg : PromptSegment) (segWords : List String) :
    List (ℕ × String) → List TextMapping → ℕ → List TextMapping × ℕ
  | [], ms, ctr => (ms, ctr)
  | (sentenceIndex, sentence) :: rest, ms, ctr =>
    let sentWords := splitWs (jsToLower sentence)
    let overlap := overlapCount segWords sentWords
    let ratio := (overlap : ℚ) / max (segWords.length : ℚ) 1
    if 0.2 < ratio ∨ segWords.any (fun w => jsIncludes (jsToLower sentence) w) = true then
      sentLoop env seg segWords rest
        (ms ++ [{ segmentId := seg.id
                  segmentText := seg.text
                  outputSentenceIndex := sentenceIndex
                  outputSentenceText := jsTrim sentence
                  confidence := min 0.95 (ratio + 0.3 + env.rand ctr * 0.2)
                  method := "token_overlap" }]) (ctr + 1)
    else sentLoop env seg segWords rest ms ctr

/-- `Math.floor` of a nonnegative JS number to an array index. -/
def jsFloorToNat (q : ℚ) : ℕ :=
  ⌊q⌋.toNat

/-- The outer `segments.forEach` loop of `clientExplainText`, including the
forced random-sentence fallback guarded by `sentences.length > 0`. -/
def segExplainLoop (env : JsEnv) (sentences : List String) :
    List PromptSegment → List TextMapping → ℕ → List TextMapping × ℕ
  | [], ms, ctr => (ms, ctr)
  | seg :: rest, ms, ctr =>
    let segWords := splitWs (jsToLower seg.text)
    let p := sentLoop env seg segWords sentences.enum ms ctr
    if p.1.any (fun m => m.segmentId == seg.id) = false ∧ 0 < sentences.length then
      segExplainLoop env sentences rest
        (p.1 ++ [{ segmentId := seg.id
                   segmentText := seg.text
                   outputSentenceIndex := jsFloorToNat (env.rand p.2 * sentences.length)
                   outputSentenceText :=
                     jsTrim (sentences.getD (jsFloorToNat (env.rand p.2 * sentences.length)) "")
                   confidence := 0.3 + env.rand (p.2 + 1) * 0.3
                   method := "embedding_similarity" }]) (p.2 + 2)
    else segExplainLoop env sentences rest p.1 p.2

/-- `clientExplainText` from the API client module. -/
def clientExplainText (env : JsEnv) (segments : List PromptSegment)
    (generatedText : String) : TextExplanation :=
  let sentences := sentencesOf generatedText
  let ms := (segExplainLoop env sentences segments [] 0).1
  { mappings := ms
    overallConfidence := ms.foldl (fun acc m => acc + m.confidence) 0 / max (ms.length : ℚ) 1
    explanationMethod := "client_approximation" }

/-- One heatmap point (`ImageHeatmapPoint` in `api.types.ts`). -/
structure HeatPoint where
  x : ℚ
  y : ℚ
  intensity : ℚ
deriving DecidableEq, Repr

/-- One element of `ImageExplanation.mappings` (`api.types.ts`). -/
structure ImageMapping where
  segmentId : String
  segmentText : String
  heatmap : List HeatPoint
  confidence : ℚ
  method : String
deriving DecidableEq, Repr

/-- `ImageExplanation` from `api.types.ts`. -/
structure ImageExplanation where
  mappings : List ImageMapping
  overallConfidence : ℚ
  explanationMethod : String
deriving DecidableEq, Repr

/-- `Math.PI` as the exact value of the nearest double. -/
def piQ : ℚ := 3.141592653589793

/-- JS `x % 1` for nonnegative `x`: the fractional part. -/
def qmod1 (q : ℚ) : ℚ := q - ⌊q⌋

/-- One iteration of the 50-point scatter loop of `clientExplainImage`:
`some` point when it lands on the canvas, `none` when it is dropped. -/
def heatPointAt (env : JsEnv) (imageWidth imageHeight centerX centerY importance : ℚ)
    (base : ℕ) (i : ℕ) : Option HeatPoint :=
  let angle := env.rand (base + 2 * i) * (2 * piQ)
  let distance := env.rand (base + 2 * i + 1) * imageWidth * 0.3
  let x := centerX + env.qcos angle * distance
  let y := centerY + env.qsin angle * distance
  let normalizedDistance := distance / (imageWidth * 0.3)
  let intensity := max 0 (1 - normalizedDistance) * importance
  if 0 ≤ x ∧ x < imageWidth ∧ 0 ≤ y ∧ y < imageHeight then
    some { x := x, y := y, intensity := intensity }
  else none

/-- The per-segment body of `clientExplainImage` at position `p.1` with
segment `p.2`: pseudo-center from the index, then the 50-point scatter. -/
def imageMappingFor (env : JsEnv) (imageWidth imageHeight : ℚ)
    (p : ℕ × PromptSegment) : ImageMapping :=
  let seedX := qmod1 ((p.1 : ℚ) * 0.3 + 0.2)
  let seedY := qmod1 ((p.1 : ℚ) * 0.4 + 0.1)
  let centerX := imageWidth * (0.2 + seedX * 0.6)
  let centerY := imageHeight * (0.2 + seedY * 0.6)
  { segmentId := p.2.id
    segmentText := p.2.text
    heatmap := (List.range 50).filterMap
        (heatPointAt env imageWidth imageHeight centerX centerY
          p.2.metadata.importance (100 * p.1))
    confidence := p.2.metadata.importance
    method := "clip_embedding" }

/-- `clientExplainImage` from the API client module. -/
def clientExplainImage (env : JsEnv) (segments : List PromptSegment)
    (imageWidth imageHeight : ℚ) : ImageExplanation :=
  let mappings := segments.enum.map (imageMappingFor env imageWidth imageHeight)
  { mappings := mappings
    overallConfidence :=
      mappings.foldl (fun acc m => acc + m.confidence) 0 / max (mappings.length : ℚ) 1
    explanationMethod := "client_approximation" }

/-- A fixed oracle environment for concrete witnesses: every random draw is
0, every generated id is `"seg"`, cosine is constantly 1 and sine 0. -/
def env0 : JsEnv :=
  { rand := fun _ => 0, segId := fun _ => "seg", qcos := fun _ => 1, qsin := fun _ => 0,
    nowIso := "" }

/-- The separator match attempted at position `i` of `l` (used to state
that a string contains no phrase separator). -/
def sepAtPos (l : List Char) (i : ℕ) : Option ℕ :=
  match l.drop i with
  | [] => none
  | c :: cs => matchSepAt c cs

/-- The single segment produced by `clientSegmentPrompt env0` on the prompt
`"realistic woman"`, a fragment matching both a style keyword and a subject
keyword. -/
def c8seg : PromptSegment :=
  { id := "seg", text := "realistic woman", type := "keyword", startIndex := 0, endIndex := 15,
    metadata := { importance := 0.5 + 0 * 0.5, category := "style", color := "#0071e3" } }

/-- Each loop iteration of `computeWordDiff` consumes the word it emits:
projecting the diff onto its non-added entries recovers the old word list,
and onto its non-removed entries the new word list. -/
theorem computeWordDiffAux_projections (os ns : List String) :
    ((computeWordDiffAux os ns).filter
        (fun d => d.type == WDType.unchanged || d.type == WDType.removed)).map (fun d => d.text) = os
  ∧ ((computeWordDiffAux os ns).filter
        (fun d => d.type == WDType.unchanged || d.type == WDType.added)).map (fun d => d.text) = ns := by
  induction os, ns using computeWordDiffAux.induct with
  | case1 => simp [computeWordDiffAux]
  | case2 n ns ih => simp [computeWordDiffAux, ih]
  | case3 o os ih => simp [computeWordDiffAux, ih]
  | case4 os n ns ih => simp [computeWordDiffAux, ih]
  | case5 o os n ns hne dNewInOld dOldInNew hfo hfn hlt ih =>
    simp [computeWordDiffAux, hne, hfo, hfn, hlt, ih]
  | case6 o os n ns hne dNewInOld dOldInNew hfo hfn hlt ih =>
    simp [computeWordDiffAux, hne, hfo, hfn, hlt, ih]
  | case7 o os n ns hne val hfo hfn ih =>
    simp [computeWordDiffAux, hne, hfo, hfn, ih]
  | case8 o os n ns hne val hfo hfn ih =>
    simp [computeWordDiffAux, hne, hfo, hfn, ih]
  | case9 o os n ns hne hfo hfn ih =>
    simp [computeWordDiffAux, hne, hfo, hfn, ih]

/-- C1: word-diff round-trip.  For every pair of strings, the entries of
`computeWordDiff oldText newText` typed `unchanged` or `removed`, in emitted
order, carry exactly the whitespace-split word sequence of `oldText`, and
the entries typed `unchanged` or `added` carry exactly the whitespace-split
word sequence of `newText`. -/
theorem computeWordDiff_roundTrip (oldText newText : String) :
    ((computeWordDiff oldText newText).filter
        (fun d => d.type == WDType.unchanged || d.type == WDType.removed)).map (fun d => d.text)
      = splitWs oldText
  ∧ ((computeWordDiff oldText newText).filter
        (fun d => d.type == WDType.unchanged || d.type == WDType.added)).map (fun d => d.text)
      = splitWs newText :=
  computeWordDiffAux_projections (splitWs oldText) (splitWs newText)

/-- Diffing a word list against itself emits every word as `unchanged`. -/
theorem computeWordDiffAux_self (l : List String) :
    computeWordDiffAux l l = l.map (fun w => ⟨w, .unchanged⟩) := by
  induction l with
  | nil => simp [computeWordDiffAux]
  | cons w ws ih => simp [computeWordDiffAux, ih]

/-- `computeWordDiff x x` evaluates to all-unchanged over the split words. -/
theorem computeWordDiff_self (x : String) :
    computeWordDiff x x = (splitWs x).map (fun w => ⟨w, .unchanged⟩) :=
  computeWordDiffAux_self (splitWs x)

/-- C9: diff idempotence.  Diffing a string against itself yields only
`unchanged` entries from `computeWordDiff`, and only `same` entries (no
`added`, no `removed`) from the set-based `diffWords` of `WhatIfEditor`. -/
theorem diff_idempotent (x : String) :
    (∀ e ∈ computeWordDiff x x, e.type = WDType.unchanged)
  ∧ (∀ e ∈ diffWords x x, e.type = DWType.same) := by
  constructor
  · intro e he
    rw [computeWordDiff_self] at he
    obtain ⟨w, _, rfl⟩ := List.mem_map.mp he
    rfl
  · intro e he
    simp only [diffWords, List.mem_append, List.mem_map, List.mem_filter] at he
    rcases he with ⟨w, ⟨hw, hnc⟩, rfl⟩ | ⟨w, hw, rfl⟩
    · simp [hw] at hnc
    · simp [hw]

/-- Witness for C9 at `x = "a a"`. -/
theorem diff_idempotent_witness :
    ((⟨"a", WDType.unchanged⟩ : WordDiff) ∈ computeWordDiff "a a" "a a"
      ∧ (⟨"a", DWType.same⟩ : DW) ∈ diffWords "a a" "a a")
  ∧ ((⟨"a", WDType.unchanged⟩ : WordDiff).type = WDType.unchanged
      ∧ (⟨"a", DWType.same⟩ : DW).type = DWType.same) := by
  have h1 : (⟨"a", WDType.unchanged⟩ : WordDiff) ∈ computeWordDiff "a a" "a a" := by
    rw [computeWordDiff_self]; decide
  have h2 : (⟨"a", DWType.same⟩ : DW) ∈ diffWords "a a" "a a" := by decide
  exact ⟨⟨h1, h2⟩, (diff_idempotent "a a").1 _ h1, (diff_idempotent "a a").2 _ h2⟩

/-- C2 counterexample: on `oldText = "a b"`, `newText = "b a"`, the first
loop step is a mismatch (`"a" ≠ "b"`) where both lookaheads succeed at the
same distance 1, yet the first emitted entry is `"b"` as `added` — the old
word is not consumed first as `removed`. -/
theorem wordDiff_tie_counterexample :
    splitWs "a b" = ["a", "b"]
  ∧ splitWs "b a" = ["b", "a"]
  ∧ (["a", "b"] : List String).findIdx? (· == "b") = some 1
  ∧ (["b", "a"] : List String).findIdx? (· == "a") = some 1
  ∧ computeWordDiff "a b" "b a"
      = [⟨"b", .added⟩, ⟨"a", .unchanged⟩, ⟨"b", .removed⟩] := by
  refine ⟨by decide, by decide, by decide, by decide, ?_⟩
  simp [computeWordDiff, computeWordDiffAux, splitWs, splitRuns, splitRunsAux, isJsWs]

/-- C2 (amended): word-diff tie-break.  When the current old and new words
differ and both lookaheads succeed at exactly equal distances, the loop
emits the current *new* word as `added` (the new word is consumed first),
not the old word as `removed`. -/
theorem wordDiff_tie_emits_added (o n : String) (os ns : List String) (d : ℕ)
    (hne : o ≠ n)
    (hNewInOld : (o :: os).findIdx? (· == n) = some d)
    (hOldInNew : (n :: ns).findIdx? (· == o) = some d) :
    computeWordDiffAux (o :: os) (n :: ns)
      = ⟨n, .added⟩ :: computeWordDiffAux (o :: os) ns := by
  simp [computeWordDiffAux, hne, hNewInOld, hOldInNew]

/-- Witness for C2's amended tie-break rule at a concrete tie. -/
theorem wordDiff_tie_emits_added_witness :
    ("a" ≠ "b"
      ∧ (["a", "b"] : List String).findIdx? (· == "b") = some 1
      ∧ (["b", "a"] : List String).findIdx? (· == "a") = some 1)
  ∧ computeWordDiffAux ["a", "b"] ["b", "a"]
      = ⟨"b", .added⟩ :: computeWordDiffAux ["a", "b"] ["a"] :=
  ⟨⟨by decide, by decide, by decide⟩,
    wordDiff_tie_emits_added "a" "b" ["b"] ["a"] 1 (by decide) (by decide) (by decide)⟩


/-- Every entry of the original-segments loop that references an original
segment references one drawn from the remaining originals. -/
theorem csAux_orig_mem (news : List PromptSegment) :
    ∀ (os : List PromptSegment) (matched : List String) (c : SegmentChange),
      c ∈ computeSegmentChangesAux news os matched →
      ∀ s, c.originalSegment = some s → s ∈ os := by
  intro os
  induction os with
  | nil =>
    intro matched c hc s hs
    simp [computeSegmentChangesAux] at hc
    obtain ⟨n, _, rfl⟩ := hc
    simp at hs
  | cons orig rest ih =>
    intro matched c hc s hs
    cases hfind : news.find? (fun n => segTextMatches orig n && !decide (n.id ∈ matched)) with
    | some m =>
      simp only [computeSegmentChangesAux, hfind] at hc
      rcases List.mem_cons.mp hc with rfl | hc
      · simp at hs
        exact hs ▸ List.mem_cons_self _ _
      · exact List.mem_cons_of_mem _ (ih _ _ hc s hs)
    | none =>
      cases hfind2 : news.find? (fun n => !decide (n.id ∈ matched) && segSimilar orig n) with
      | some m =>
        simp only [computeSegmentChangesAux, hfind, hfind2] at hc
        rcases List.mem_cons.mp hc with rfl | hc
        · simp at hs
          exact hs ▸ List.mem_cons_self _ _
        · exact List.mem_cons_of_mem _ (ih _ _ hc s hs)
      | none =>
        simp only [computeSegmentChangesAux, hfind, hfind2] at hc
        rcases List.mem_cons.mp hc with rfl | hc
        · simp at hs
          exact hs ▸ List.mem_cons_self _ _
        · exact List.mem_cons_of_mem _ (ih _ _ hc s hs)

theorem csAux_count_orig (news : List PromptSegment) :
    ∀ (os : List PromptSegment) (matched : List String),
      (os.map (fun s => s.id)).Nodup →
      ∀ o ∈ os,
        (computeSegmentChangesAux news os matched).countP
          (fun c => c.originalSegment.any (fun s => s.id == o.id)) = 1 := by
  intro os
  induction os with
  | nil =>
    intro matched _ o ho
    simp at ho
  | cons orig rest ih =>
    intro matched hnd o ho
    simp only [List.map_cons, List.nodup_cons] at hnd
    obtain ⟨hmem, hnd'⟩ := hnd
    have tail0 : ∀ matched',
        (computeSegmentChangesAux news rest matched').countP
          (fun c => c.originalSegment.any (fun s => s.id == orig.id)) = 0 := by
      intro matched'
      rw [List.countP_eq_zero]
      intro c hc
      cases hos : c.originalSegment with
      | none => simp [hos]
      | some s =>
        have hs := csAux_orig_mem news rest matched' c hc s hos
        have hne : s.id ≠ orig.id := fun h => hmem (h ▸ List.mem_map_of_mem _ hs)
        simp [hos, hne]
    rcases List.mem_cons.mp ho with rfl | ho
    · cases hfind : news.find? (fun n => segTextMatches o n && !decide (n.id ∈ matched)) with
      | some m =>
        simp only [computeSegmentChangesAux, hfind, List.countP_cons, tail0]
        simp
      | none =>
        cases hfind2 : news.find? (fun n => !decide (n.id ∈ matched) && segSimilar o n) with
        | some m =>
          simp only [computeSegmentChangesAux, hfind, hfind2, List.countP_cons, tail0]
          simp
        | none =>
          simp only [computeSegmentChangesAux, hfind, hfind2, List.countP_cons, tail0]
          simp
    · have hne : orig.id ≠ o.id := by
        intro h
        exact hmem (h ▸ List.mem_map_of_mem _ ho)
      cases hfind : news.find? (fun n => segTextMatches orig n && !decide (n.id ∈ matched)) with
      | some m =>
        simp only [computeSegmentChangesAux, hfind, List.countP_cons]
        simp [hne, ih _ hnd' o ho]
      | none =>
        cases hfind2 : news.find? (fun n => !decide (n.id ∈ matched) && segSimilar orig n) with
        | some m =>
          simp only [computeSegmentChangesAux, hfind, hfind2, List.countP_cons]
          simp [hne, ih _ hnd' o ho]
        | none =>
          simp only [computeSegmentChangesAux, hfind, hfind2, List.countP_cons]
          simp [hne, ih _ hnd' o ho]

theorem csAux_shape (news : List PromptSegment) :
    ∀ (os : List PromptSegment) (matched : List String) (c : SegmentChange),
      c ∈ computeSegmentChangesAux news os matched →
      ((c.type = .unchanged ∨ c.type = .modified) →
        c.originalSegment.isSome ∧ c.newSegment.isSome)
      ∧ (c.type = .removed → c.originalSegment.isSome ∧ c.newSegment = none)
      ∧ (c.type = .added → c.originalSegment = none ∧ c.newSegment.isSome) := by
  intro os
  induction os with
  | nil =>
    intro matched c hc
    simp [computeSegmentChangesAux] at hc
    obtain ⟨n, _, rfl⟩ := hc
    simp
  | cons orig rest ih =>
    intro matched c hc
    cases hfind : news.find? (fun n => segTextMatches orig n && !decide (n.id ∈ matched)) with
    | some m =>
      simp only [computeSegmentChangesAux, hfind] at hc
      rcases List.mem_cons.mp hc with rfl | hc
      · simp
      · exact ih _ _ hc
    | none =>
      cases hfind2 : news.find? (fun n => !decide (n.id ∈ matched) && segSimilar orig n) with
      | some m =>
        simp only [computeSegmentChangesAux, hfind, hfind2] at hc
        rcases List.mem_cons.mp hc with rfl | hc
        · simp
        · exact ih _ _ hc
      | none =>
        simp only [computeSegmentChangesAux, hfind, hfind2] at hc
        rcases List.mem_cons.mp hc with rfl | hc
        · simp
        · exact ih _ _ hc

theorem csAux_length (news : List PromptSegment) :
    ∀ (os : List PromptSegment) (matched : List String),
      (computeSegmentChangesAux news os matched).length
        = os.length
          + (computeSegmentChangesAux news os matched).countP
              (fun c => c.type == ChangeType.added) := by
  intro os
  induction os with
  | nil =>
    intro matched
    simp only [computeSegmentChangesAux, List.length_map, List.length_nil, Nat.zero_add,
      List.countP_map]
    exact (List.countP_eq_length.mpr (fun a _ => rfl)).symm
  | cons orig rest ih =>
    intro matched
    cases hfind : news.find? (fun n => segTextMatches orig n && !decide (n.id ∈ matched)) with
    | some m =>
      simp only [computeSegmentChangesAux, hfind, List.length_cons, List.countP_cons]
      simp only [ih]
      simp
      omega
    | none =>
      cases hfind2 : news.find? (fun n => !decide (n.id ∈ matched) && segSimilar orig n) with
      | some m =>
        simp only [computeSegmentChangesAux, hfind, hfind2, List.length_cons, List.countP_cons]
        simp only [ih]
        simp
        omega
      | none =>
        simp only [computeSegmentChangesAux, hfind, hfind2, List.length_cons, List.countP_cons]
        simp only [ih]
        simp
        omega

theorem countP_id_filter :
    ∀ (l : List PromptSegment) (matched : List String) (nid : String),
      (l.map (fun s => s.id)).Nodup → nid ∈ l.map (fun s => s.id) →
      (l.filter (fun x => !decide (x.id ∈ matched))).countP (fun x => x.id == nid)
        = if nid ∈ matched then 0 else 1 := by
  intro l
  induction l with
  | nil =>
    intro matched nid _ hmem
    simp at hmem
  | cons x xs ih =>
    intro matched nid hnd hmem
    simp only [List.map_cons, List.nodup_cons] at hnd
    obtain ⟨hx_not, hnd'⟩ := hnd
    by_cases hx : x.id = nid
    · subst hx
      by_cases hm : x.id ∈ matched
      · simp [List.filter_cons, hm]
        intro a ha _ h
        exact hx_not (h ▸ List.mem_map_of_mem _ ha)
      · simp [List.filter_cons, hm]
        intro a ha _ h
        exact hx_not (h ▸ List.mem_map_of_mem _ ha)
    · have hmem' : nid ∈ xs.map (fun s => s.id) := by
        rcases List.mem_cons.mp hmem with h | h
        · exact absurd h.symm hx
        · exact h
      by_cases hmf : x.id ∈ matched
      · simp only [List.filter_cons, hmf, decide_True, Bool.not_true, Bool.false_eq_true,
          if_false]
        exact ih matched nid hnd' hmem'
      · simp only [List.filter_cons, hmf, decide_False, Bool.not_false, if_true,
          List.countP_cons]
        rw [ih matched nid hnd' hmem']
        have hb : (x.id == nid) = false := by simp [hx]
        simp [hb]

/-- Each new segment with an unmatched id is referenced exactly once by the
changes produced from the remaining originals plus the trailing added
entries; already-matched ids are never referenced again. -/
theorem csAux_count_new (news : List PromptSegment)
    (hnd : (news.map (fun s => s.id)).Nodup) :
    ∀ (os : List PromptSegment) (matched : List String) (n : PromptSegment), n ∈ news →
      (computeSegmentChangesAux news os matched).countP
        (fun c => c.newSegment.any (fun s => s.id == n.id))
      = if n.id ∈ matched then 0 else 1 := by
  intro os
  induction os with
  | nil =>
    intro matched n hn
    have h := countP_id_filter news matched n.id hnd (List.mem_map_of_mem _ hn)
    simp only [computeSegmentChangesAux, List.countP_map]
    rw [← h]
    rfl
  | cons orig rest ih =>
    intro matched n hn
    cases hfind : news.find? (fun nn => segTextMatches orig nn && !decide (nn.id ∈ matched)) with
    | some m =>
      have hm : m ∈ news := List.mem_of_find?_eq_some hfind
      have hpm := List.find?_some hfind
      simp only [Bool.and_eq_true, Bool.not_eq_true', decide_eq_false_iff_not] at hpm
      have hmnot : m.id ∉ matched := hpm.2
      simp only [computeSegmentChangesAux, hfind, List.countP_cons]
      by_cases hid : m.id = n.id
      · have heq : m = n := List.inj_on_of_nodup_map hnd hm hn hid
        subst heq
        rw [ih (m.id :: matched) m hn]
        simp [hmnot]
      · rw [ih (m.id :: matched) n hn]
        have hb : (m.id == n.id) = false := by simp [hid]
        have hiff : (n.id ∈ m.id :: matched) ↔ (n.id ∈ matched) := by
          constructor
          · intro h
            rcases List.mem_cons.mp h with h | h
            · exact absurd h.symm hid
            · exact h
          · exact fun h => List.mem_cons_of_mem _ h
        simp [hb, hiff]
    | none =>
      cases hfind2 : news.find? (fun nn => !decide (nn.id ∈ matched) && segSimilar orig nn) with
      | some m =>
        have hm : m ∈ news := List.mem_of_find?_eq_some hfind2
        have hpm := List.find?_some hfind2
        simp only [Bool.and_eq_true, Bool.not_eq_true', decide_eq_false_iff_not] at hpm
        have hmnot : m.id ∉ matched := hpm.1
        simp only [computeSegmentChangesAux, hfind, hfind2, List.countP_cons]
        by_cases hid : m.id = n.id
        · have heq : m = n := List.inj_on_of_nodup_map hnd hm hn hid
          subst heq
          rw [ih (m.id :: matched) m hn]
          simp [hmnot]
        · rw [ih (m.id :: matched) n hn]
          have hb : (m.id == n.id) = false := by simp [hid]
          have hiff : (n.id ∈ m.id :: matched) ↔ (n.id ∈ matched) := by
            constructor
            · intro h
              rcases List.mem_cons.mp h with h | h
              · exact absurd h.symm hid
              · exact h
            · exact fun h => List.mem_cons_of_mem _ h
          simp [hb, hiff]
      | none =>
        simp only [computeSegmentChangesAux, hfind, hfind2, List.countP_cons]
        rw [ih matched n hn]
        simp

/-- C4: segment-change partition.  Assuming all segment ids across the two
input lists are distinct, `computeSegmentChanges` returns exactly
`len(orig) + (number of added entries, i.e. unmatched new segments)`
entries; every original id and every new id is referenced by exactly one
entry; `unchanged`/`modified` entries reference exactly one original and
one new segment, `removed` entries only an original, `added` entries only a
new segment, and no entry references neither. -/
theorem computeSegmentChanges_partition (origs news : List PromptSegment)
    (hids : ((origs.map (fun s => s.id)) ++ (news.map (fun s => s.id))).Nodup) :
    (computeSegmentChanges origs news).length
      = origs.length
        + (computeSegmentChanges origs news).countP (fun c => c.type == ChangeType.added)
  ∧ (∀ o ∈ origs, (computeSegmentChanges origs news).countP
        (fun c => c.originalSegment.any (fun s => s.id == o.id)) = 1)
  ∧ (∀ n ∈ news, (computeSegmentChanges origs news).countP
        (fun c => c.newSegment.any (fun s => s.id == n.id)) = 1)
  ∧ (∀ c ∈ computeSegmentChanges origs news,
      ((c.type = .unchanged ∨ c.type = .modified) →
        c.originalSegment.isSome ∧ c.newSegment.isSome)
      ∧ (c.type = .removed → c.originalSegment.isSome ∧ c.newSegment = none)
      ∧ (c.type = .added → c.originalSegment = none ∧ c.newSegment.isSome)) := by
  refine ⟨csAux_length news origs [],
    csAux_count_orig news origs [] hids.of_append_left, ?_,
    fun c hc => csAux_shape news origs [] c hc⟩
  intro n hn
  have h := csAux_count_new news hids.of_append_right origs [] n hn
  simpa using h

/-- Witness for C4 on a concrete pair of segment lists with one exact
match, one removal and one addition. -/
theorem computeSegmentChanges_partition_witness :
    ((c4Origs.map (fun s => s.id)) ++ (c4News.map (fun s => s.id))).Nodup
  ∧ ((computeSegmentChanges c4Origs c4News).length
      = c4Origs.length
        + (computeSegmentChanges c4Origs c4News).countP (fun c => c.type == ChangeType.added)
    ∧ (∀ o ∈ c4Origs, (computeSegmentChanges c4Origs c4News).countP
          (fun c => c.originalSegment.any (fun s => s.id == o.id)) = 1)
    ∧ (∀ n ∈ c4News, (computeSegmentChanges c4Origs c4News).countP
          (fun c => c.newSegment.any (fun s => s.id == n.id)) = 1)
    ∧ (∀ c ∈ computeSegmentChanges c4Origs c4News,
        ((c.type = .unchanged ∨ c.type = .modified) →
          c.originalSegment.isSome ∧ c.newSegment.isSome)
        ∧ (c.type = .removed → c.originalSegment.isSome ∧ c.newSegment = none)
        ∧ (c.type = .added → c.originalSegment = none ∧ c.newSegment.isSome))) :=
  ⟨by decide, computeSegmentChanges_partition c4Origs c4News (by decide)⟩

/-- C7: empty-prompt boundary.  Segmenting the empty string yields exactly
one segment: a zero-length `semantic_chunk` spanning `[0, 0)` with text `""`
and importance 1 (and the default category/color of the fallback branch). -/
theorem clientSegmentPrompt_empty (env : JsEnv) (sessionId : String) :
    (clientSegmentPrompt env "" sessionId).segments
      = [{ id := env.segId 0, text := "", type := "semantic_chunk", startIndex := 0,
           endIndex := 0,
           metadata := { importance := 1, category := "context", color := "#0071e3" } }] := by
  simp [clientSegmentPrompt, jsSplitSeps, jsSplitSepsAux, segLoop, jsTrim, colors]

/-- A list that starts with `w` is at least as long as `w`. -/
theorem isPre_length {w l : List Char} (h : isPre w l = true) : w.length ≤ l.length := by
  induction w generalizing l with
  | nil => simp
  | cons a as ih =>
    cases l with
    | nil => simp [isPre] at h
    | cons b bs =>
      simp only [isPre, Bool.and_eq_true] at h
      simpa using ih h.2

/-- A successful `indexOf(needle, start)` lands at or after `start` and the
match fits inside the haystack. -/
theorem firstMatchFrom_bounds {hay needle : List Char} {start i : ℕ}
    (h : firstMatchFrom hay needle start = some i) :
    start ≤ i ∧ i + needle.length ≤ hay.length := by
  have hm := List.mem_of_find?_eq_some h
  have hp := List.find?_some h
  simp only [List.mem_range] at hm
  simp only [Bool.and_eq_true, decide_eq_true_eq] at hp
  have hl := isPre_length hp.2
  simp only [List.length_drop] at hl
  exact ⟨hp.1, by omega⟩

/-- Loop invariant of the `phrases.forEach` loop: every emitted segment
starts at or after the running cursor, its span is well-formed and inside
the prompt, and consecutive segments do not overlap. -/
theorem segLoop_inv (env : JsEnv) (prompt : String) :
    ∀ (phrases : List String) (currentIndex pushCount : ℕ),
      (∀ s ∈ segLoop env prompt phrases currentIndex pushCount,
        currentIndex ≤ s.startIndex ∧ s.startIndex ≤ s.endIndex
          ∧ s.endIndex ≤ prompt.length)
      ∧ List.Chain' (fun a b => a.endIndex ≤ b.startIndex)
          (segLoop env prompt phrases currentIndex pushCount) := by
  intro phrases
  induction phrases with
  | nil => intro ci k; simp [segLoop]
  | cons phrase rest ih =>
    intro ci k
    by_cases ht : jsTrim phrase = ""
    · simpa [segLoop, ht] using ih ci k
    · cases hfind : firstMatchFrom prompt.data (jsTrim phrase).data ci with
      | none => simpa [segLoop, ht, hfind] using ih ci k
      | some si =>
        have hb := firstMatchFrom_bounds hfind
        have hlen : (jsTrim phrase).data.length = (jsTrim phrase).length := rfl
        have hplen : prompt.data.length = prompt.length := rfl
        constructor
        · intro s hs
          simp only [segLoop, ht, hfind, if_false] at hs
          rcases List.mem_cons.mp hs with rfl | hs
          · refine ⟨hb.1, by simp, ?_⟩
            simp only
            omega
          · have h2 := (ih (si + (jsTrim phrase).length) (k + 1)).1 s hs
            exact ⟨by omega, h2.2.1, h2.2.2⟩
        · simp only [segLoop, ht, hfind, if_false]
          rcases hrec : segLoop env prompt rest (si + (jsTrim phrase).length) (k + 1) with _ | ⟨b, tl⟩
          · simp
          · refine List.chain'_cons'.mpr ⟨?_, by
              have := (ih (si + (jsTrim phrase).length) (k + 1)).2
              rwa [hrec] at this⟩
            intro b2 hb2
            have hb2' : b2 ∈ segLoop env prompt rest (si + (jsTrim phrase).length) (k + 1) := by
              rw [hrec]
              cases hb2
              exact List.mem_cons_self _ _
            have := (ih (si + (jsTrim phrase).length) (k + 1)).1 b2 hb2'
            simpa using this.1

/-- Non-overlapping well-formed spans have non-decreasing start offsets. -/
theorem chain_start_of_spans (l : List PromptSegment)
    (h1 : ∀ s ∈ l, s.startIndex ≤ s.endIndex)
    (h2 : List.Chain' (fun a b => a.endIndex ≤ b.startIndex) l) :
    List.Chain' (fun a b => a.startIndex ≤ b.startIndex) l := by
  induction l with
  | nil => simp
  | cons a l ih =>
    rw [List.chain'_cons'] at h2 ⊢
    refine ⟨?_, ih (fun s hs => h1 s (List.mem_cons_of_mem _ hs)) h2.2⟩
    intro b hb
    exact le_trans (h1 a (List.mem_cons_self _ _)) (h2.1 b hb)

/-- C5: segment-offset invariant.  For every non-empty prompt,
`clientSegmentPrompt` returns a non-empty segment list whose half-open
spans `[startIndex, endIndex)` are well-formed and lie within
`[0, length(prompt)]`, with each segment starting at or after the previous
segment's end (hence non-overlapping) and start offsets non-decreasing. -/
theorem clientSegmentPrompt_spans (env : JsEnv) (prompt sessionId : String)
    (hne : prompt ≠ "") :
    (clientSegmentPrompt env prompt sessionId).segments ≠ []
  ∧ (∀ s ∈ (clientSegmentPrompt env prompt sessionId).segments,
      s.startIndex ≤ s.endIndex ∧ s.endIndex ≤ prompt.length)
  ∧ List.Chain' (fun a b => a.endIndex ≤ b.startIndex)
      (clientSegmentPrompt env prompt sessionId).segments
  ∧ List.Chain' (fun a b => a.startIndex ≤ b.startIndex)
      (clientSegmentPrompt env prompt sessionId).segments := by
  have hinv := segLoop_inv env prompt
      ((jsSplitSeps prompt).filter (fun p => !(jsTrim p == ""))) 0 0
  simp only [clientSegmentPrompt]
  by_cases hz :
      (segLoop env prompt ((jsSplitSeps prompt).filter (fun p => !(jsTrim p == ""))) 0 0).length
        = 0
  · rw [if_pos hz]
    refine ⟨by simp, ?_, by simp, by simp⟩
    intro s hs
    rw [List.mem_singleton] at hs
    subst hs
    simp
  · rw [if_neg hz]
    refine ⟨?_, fun s hs => ⟨(hinv.1 s hs).2.1, (hinv.1 s hs).2.2⟩, hinv.2,
      chain_start_of_spans _ (fun s hs => (hinv.1 s hs).2.1) hinv.2⟩
    intro h
    exact hz (by simp [h])

/-- Witness for C5 at the concrete prompt `"hi"`. -/
theorem clientSegmentPrompt_spans_witness :
    ("hi" ≠ "")
  ∧ ((clientSegmentPrompt env0 "hi" "s").segments ≠ []
    ∧ (∀ s ∈ (clientSegmentPrompt env0 "hi" "s").segments,
        s.startIndex ≤ s.endIndex ∧ s.endIndex ≤ "hi".length)
    ∧ List.Chain' (fun a b => a.endIndex ≤ b.startIndex)
        (clientSegmentPrompt env0 "hi" "s").segments
    ∧ List.Chain' (fun a b => a.startIndex ≤ b.startIndex)
        (clientSegmentPrompt env0 "hi" "s").segments) :=
  ⟨by decide, clientSegmentPrompt_spans env0 "hi" "s" (by decide)⟩

/-- Splitting a string with no separator occurrence yields it whole. -/
theorem jsSplitSepsAux_no_sep :
    ∀ (l : List Char) (acc : List Char),
      (∀ i, i < l.length → sepAtPos l i = none) →
      jsSplitSepsAux acc l = [String.mk (acc.reverse ++ l)] := by
  intro l
  induction l with
  | nil =>
    intro acc _
    simp [jsSplitSepsAux]
  | cons c cs ih =>
    intro acc h
    have h0 := h 0 (by simp)
    simp only [sepAtPos, List.drop_zero] at h0
    simp only [jsSplitSepsAux, h0]
    rw [ih (c :: acc) ?_]
    · simp
    · intro i hi
      have := h (i + 1) (by simpa using Nat.succ_lt_succ hi)
      simpa [sepAtPos] using this

theorem jsSplitSeps_c8 : jsSplitSeps "realistic woman" = ["realistic woman"] := by
  have h := jsSplitSepsAux_no_sep ("realistic woman".data) [] (by decide)
  simpa [jsSplitSeps] using h

/-- `clientSegmentPrompt env0` on `"realistic woman"` evaluates to the
single segment `c8seg`. -/
theorem clientSegmentPrompt_c8_eval :
    (clientSegmentPrompt env0 "realistic woman" "s").segments = [c8seg] := by
  simp only [clientSegmentPrompt, jsSplitSeps_c8]
  rfl

/-- Every segment emitted by the phrase loop stores the category computed by
the keyword chain on its lowercased text, and is a phrase/keyword segment. -/
theorem segLoop_category (env : JsEnv) (prompt : String) :
    ∀ (phrases : List String) (currentIndex pushCount : ℕ) (s : PromptSegment),
      s ∈ segLoop env prompt phrases currentIndex pushCount →
      s.metadata.category = jsCategoryOf (jsToLower s.text)
      ∧ (s.type = "phrase" ∨ s.type = "keyword") := by
  intro phrases
  induction phrases with
  | nil => intro ci k s hs; simp [segLoop] at hs
  | cons phrase rest ih =>
    intro ci k s hs
    by_cases ht : jsTrim phrase = ""
    · rw [show segLoop env prompt (phrase :: rest) ci k = segLoop env prompt rest ci k from by
        simp [segLoop, ht]] at hs
      exact ih ci k s hs
    · cases hfind : firstMatchFrom prompt.data (jsTrim phrase).data ci with
      | none =>
        rw [show segLoop env prompt (phrase :: rest) ci k = segLoop env prompt rest ci k from by
          simp [segLoop, ht, hfind]] at hs
        exact ih ci k s hs
      | some si =>
        simp only [segLoop, ht, hfind, if_false] at hs
        rcases List.mem_cons.mp hs with rfl | hs
        · refine ⟨rfl, ?_⟩
          by_cases hw : 2 < (jsSplitChar ' ' (jsTrim phrase)).length
          · left
            simp [hw]
          · right
            simp [hw]
        · exact ih _ _ s hs

/-- C8: category priority.  Every phrase/keyword segment returned by
`clientSegmentPrompt` carries the category assigned by testing the keyword
lists in the fixed order style, modifier, subject, action on its lowercased
text, with default `context`; in particular a fragment matching a style
keyword — even one also matching a subject keyword — is categorized
`style`. -/
theorem clientSegmentPrompt_category (env : JsEnv) (prompt sessionId : String)
    (s : PromptSegment)
    (hs : s ∈ (clientSegmentPrompt env prompt sessionId).segments)
    (ht : s.type = "phrase" ∨ s.type = "keyword") :
    s.metadata.category = jsCategoryOf (jsToLower s.text)
  ∧ (matchesAny styleWords (jsToLower s.text) = true → s.metadata.category = "style")
  ∧ (matchesAny styleWords (jsToLower s.text) = false
      ∧ matchesAny modifierWords (jsToLower s.text) = true →
      s.metadata.category = "modifier")
  ∧ (matchesAny styleWords (jsToLower s.text) = false
      ∧ matchesAny modifierWords (jsToLower s.text) = false
      ∧ matchesAny subjectWords (jsToLower s.text) = true →
      s.metadata.category = "subject")
  ∧ (matchesAny styleWords (jsToLower s.text) = false
      ∧ matchesAny modifierWords (jsToLower s.text) = false
      ∧ matchesAny subjectWords (jsToLower s.text) = false
      ∧ matchesAny actionWords (jsToLower s.text) = true →
      s.metadata.category = "action")
  ∧ (matchesAny styleWords (jsToLower s.text) = false
      ∧ matchesAny modifierWords (jsToLower s.text) = false
      ∧ matchesAny subjectWords (jsToLower s.text) = false
      ∧ matchesAny actionWords (jsToLower s.text) = false →
      s.metadata.category = "context") := by
  have hcat : s.metadata.category = jsCategoryOf (jsToLower s.text) := by
    simp only [clientSegmentPrompt] at hs
    by_cases hz : (segLoop env prompt
        ((jsSplitSeps prompt).filter (fun p => !(jsTrim p == ""))) 0 0).length = 0
    · rw [if_pos hz] at hs
      rw [List.mem_singleton] at hs
      subst hs
      rcases ht with ht | ht <;> simp at ht
    · rw [if_neg hz] at hs
      exact (segLoop_category env prompt _ 0 0 s hs).1
  refine ⟨hcat, ?_, ?_, ?_, ?_, ?_⟩
  · intro h
    rw [hcat]
    simp [jsCategoryOf, h]
  · rintro ⟨h1, h2⟩
    rw [hcat]
    simp [jsCategoryOf, h1, h2]
  · rintro ⟨h1, h2, h3⟩
    rw [hcat]
    simp [jsCategoryOf, h1, h2, h3]
  · rintro ⟨h1, h2, h3, h4⟩
    rw [hcat]
    simp [jsCategoryOf, h1, h2, h3, h4]
  · rintro ⟨h1, h2, h3, h4⟩
    rw [hcat]
    simp [jsCategoryOf, h1, h2, h3, h4]

/-- Witness for C8: the fragment `"realistic woman"` matches both a style
keyword and a subject keyword and is categorized `style`. -/
theorem clientSegmentPrompt_category_witness :
    (c8seg ∈ (clientSegmentPrompt env0 "realistic woman" "s").segments
      ∧ (c8seg.type = "phrase" ∨ c8seg.type = "keyword")
      ∧ matchesAny styleWords (jsToLower c8seg.text) = true
      ∧ matchesAny subjectWords (jsToLower c8seg.text) = true)
  ∧ c8seg.metadata.category = "style" := by
  have hmem : c8seg ∈ (clientSegmentPrompt env0 "realistic woman" "s").segments := by
    rw [clientSegmentPrompt_c8_eval]
    exact List.mem_singleton.mpr rfl
  refine ⟨⟨hmem, Or.inr rfl, by decide, by decide⟩, ?_⟩
  exact (clientSegmentPrompt_category env0 "realistic woman" "s" c8seg hmem
    (Or.inr rfl)).2.1 (by decide)


/-- The inner sentence loop only appends mappings: it preserves membership. -/
theorem sentLoop_mono (env : JsEnv) (seg : PromptSegment) (segWords : List String) :
    ∀ (sents : List (ℕ × String)) (ms : List TextMapping) (ctr : ℕ) (m : TextMapping),
      m ∈ ms → m ∈ (sentLoop env seg segWords sents ms ctr).1 := by
  intro sents
  induction sents with
  | nil => intro ms ctr m hm; simpa [sentLoop] using hm
  | cons p rest ih =>
    intro ms ctr m hm
    obtain ⟨si, sent⟩ := p
    simp only [sentLoop]
    split
    · exact ih _ _ m (List.mem_append_left _ hm)
    · exact ih _ _ m hm

/-- The outer segment loop only appends mappings: it preserves membership. -/
theorem segExplainLoop_mono (env : JsEnv) (sentences : List String) :
    ∀ (segs : List PromptSegment) (ms : List TextMapping) (ctr : ℕ) (m : TextMapping),
      m ∈ ms → m ∈ (segExplainLoop env sentences segs ms ctr).1 := by
  intro segs
  induction segs with
  | nil => intro ms ctr m hm; simpa [segExplainLoop] using hm
  | cons s0 rest ih =>
    intro ms ctr m hm
    simp only [segExplainLoop]
    split
    · exact ih _ _ m (List.mem_append_left _ (sentLoop_mono env s0 _ _ ms ctr m hm))
    · exact ih _ _ m (sentLoop_mono env s0 _ _ ms ctr m hm)

/-- When at least one sentence exists, every processed segment ends up with
at least one mapping carrying its id: either some overlap mapping was pushed
for it (or an earlier segment shares its id), or the forced low-confidence
fallback fires. -/
theorem segExplainLoop_covers (env : JsEnv) (sentences : List String)
    (hs : sentences ≠ []) :
    ∀ (segs : List PromptSegment) (ms : List TextMapping) (ctr : ℕ) (seg : PromptSegment),
      seg ∈ segs →
      ∃ m ∈ (segExplainLoop env sentences segs ms ctr).1, m.segmentId = seg.id := by
  intro segs
  induction segs with
  | nil => intro ms ctr seg h; simp at h
  | cons s0 rest ih =>
    intro ms ctr seg hseg
    rcases List.mem_cons.mp hseg with rfl | hseg
    · simp only [segExplainLoop]
      split
      · refine ⟨_, segExplainLoop_mono env sentences rest _ _ _
          (List.mem_append_right _ (List.mem_singleton.mpr rfl)), rfl⟩
      · rename_i hcond
        rw [Classical.not_and_iff_or_not_not] at hcond
        rcases hcond with hcond | hcond
        · have hany : ((sentLoop env seg (splitWs (jsToLower seg.text))
              sentences.enum ms ctr).1.any (fun m => m.segmentId == seg.id)) = true := by
            rcases Bool.eq_false_or_eq_true ((sentLoop env seg (splitWs (jsToLower seg.text))
                sentences.enum ms ctr).1.any (fun m => m.segmentId == seg.id)) with h | h
            · exact h
            · exact absurd h hcond
          obtain ⟨m, hm, hmid⟩ := List.any_eq_true.mp hany
          exact ⟨m, segExplainLoop_mono env sentences rest _ _ m hm, by simpa using hmid⟩
        · exact absurd (List.length_pos.mpr hs) hcond
    · simp only [segExplainLoop]
      split
      · exact ih _ _ seg hseg
      · exact ih _ _ seg hseg

/-- C3 (amended): text-explanation totality.  Whenever the generated text
splits into at least one non-blank sentence, every input segment has at
least one mapping in `clientExplainText`; with an empty segment list the
result has zero mappings and `overallConfidence` 0. -/
theorem clientExplainText_total (env : JsEnv) (segments : List PromptSegment)
    (generatedText : String) :
    (sentencesOf generatedText ≠ [] →
      ∀ seg ∈ segments,
        ∃ m ∈ (clientExplainText env segments generatedText).mappings, m.segmentId = seg.id)
  ∧ (clientExplainText env [] generatedText).mappings = []
  ∧ (clientExplainText env [] generatedText).overallConfidence = 0 := by
  refine ⟨?_, rfl, ?_⟩
  · intro hs seg hseg
    exact segExplainLoop_covers env (sentencesOf generatedText) hs segments [] 0 seg hseg
  · show (0 : ℚ) / max ((0 : ℕ) : ℚ) 1 = 0
    norm_num

/-- C3 counterexample: with a non-empty segment list but a generated text
with no sentences (the empty string), the `sentences.length > 0` guard
blocks the fallback and the mapping list is empty, so not every segment has
a mapping. -/
theorem clientExplainText_counterexample :
    (([mkSeg "a" "zzz"] : List PromptSegment) ≠ [])
  ∧ (clientExplainText env0 [mkSeg "a" "zzz"] "").mappings = [] := by
  exact ⟨by decide, rfl⟩

/-- Witness for C3's amended claim on a one-segment, one-sentence input. -/
theorem clientExplainText_total_witness :
    (sentencesOf "A cat sat." ≠ [] ∧ mkSeg "a" "zzz" ∈ [mkSeg "a" "zzz"])
  ∧ ∃ m ∈ (clientExplainText env0 [mkSeg "a" "zzz"] "A cat sat.").mappings,
      m.segmentId = (mkSeg "a" "zzz").id :=
  ⟨⟨by decide, List.mem_singleton.mpr rfl⟩,
    (clientExplainText_total env0 [mkSeg "a" "zzz"] "A cat sat.").1 (by decide) _
      (List.mem_singleton.mpr rfl)⟩


/-- The sentence loop preserves confidence bounds: every pushed
token-overlap mapping has confidence `min 0.95 (ratio + 0.3 + r*0.2)` in
`[0, 1]` for random draws in `[0, 1)`. -/
theorem sentLoop_bounds (env : JsEnv) (seg : PromptSegment) (segWords : List String)
    (hr : ∀ n, 0 ≤ env.rand n ∧ env.rand n < 1) :
    ∀ (sents : List (ℕ × String)) (ms : List TextMapping) (ctr : ℕ),
      (∀ m ∈ ms, 0 ≤ m.confidence ∧ m.confidence ≤ 1) →
      ∀ m ∈ (sentLoop env seg segWords sents ms ctr).1,
        0 ≤ m.confidence ∧ m.confidence ≤ 1 := by
  intro sents
  induction sents with
  | nil =>
    intro ms ctr hms m hm
    exact hms m (by simpa [sentLoop] using hm)
  | cons p rest ih =>
    intro ms ctr hms m hm
    obtain ⟨si, sent⟩ := p
    simp only [sentLoop] at hm
    split at hm
    · refine ih _ _ ?_ m hm
      intro m' hm'
      rcases List.mem_append.mp hm' with h | h
      · exact hms m' h
      · rw [List.mem_singleton] at h
        subst h
        dsimp only
        constructor
        · apply le_min
          · norm_num
          · have h1 : (0:ℚ) ≤ (overlapCount segWords (splitWs (jsToLower sent)) : ℚ)
                / max (segWords.length : ℚ) 1 := by
              apply div_nonneg
              · positivity
              · exact le_trans zero_le_one (le_max_right _ _)
            have h2 := (hr ctr).1
            have h3 : (0:ℚ) ≤ env.rand ctr * 0.2 := mul_nonneg h2 (by norm_num)
            linarith
        · exact le_trans (min_le_left _ _) (by norm_num)
    · exact ih _ _ hms m hm

/-- The segment loop preserves confidence bounds: fallback mappings have
confidence `0.3 + r*0.3` in `[0, 1]` for random draws in `[0, 1)`. -/
theorem segExplainLoop_bounds (env : JsEnv) (sentences : List String)
    (hr : ∀ n, 0 ≤ env.rand n ∧ env.rand n < 1) :
    ∀ (segs : List PromptSegment) (ms : List TextMapping) (ctr : ℕ),
      (∀ m ∈ ms, 0 ≤ m.confidence ∧ m.confidence ≤ 1) →
      ∀ m ∈ (segExplainLoop env sentences segs ms ctr).1,
        0 ≤ m.confidence ∧ m.confidence ≤ 1 := by
  intro segs
  induction segs with
  | nil =>
    intro ms ctr hms m hm
    exact hms m (by simpa [segExplainLoop] using hm)
  | cons s0 rest ih =>
    intro ms ctr hms m hm
    simp only [segExplainLoop] at hm
    split at hm
    · refine ih _ _ ?_ m hm
      intro m' hm'
      rcases List.mem_append.mp hm' with h | h
      · exact sentLoop_bounds env s0 _ hr sentences.enum ms ctr hms m' h
      · rw [List.mem_singleton] at h
        subst h
        dsimp only
        have h2 := hr ((sentLoop env s0 (splitWs (jsToLower s0.text)) sentences.enum ms ctr).2 + 1)
        constructor
        · have h3 : (0:ℚ) ≤ _ * 0.3 := mul_nonneg h2.1 (by norm_num)
          linarith
        · have h3 : _ * (0.3:ℚ) ≤ 1 * 0.3 :=
            mul_le_mul_of_nonneg_right (le_of_lt h2.2) (by norm_num)
          linarith
    · exact ih _ _ (fun m' h => sentLoop_bounds env s0 _ hr sentences.enum ms ctr hms m' h) m hm

/-- The `reduce((acc, m) => acc + f m, c)` pattern is `c` plus a sum. -/
theorem foldl_add_map {α : Type} (f : α → ℚ) :
    ∀ (l : List α) (c : ℚ), l.foldl (fun acc x => acc + f x) c = c + (l.map f).sum := by
  intro l
  induction l with
  | nil => intro c; simp
  | cons x xs ih => intro c; simp [ih, add_assoc]

/-- With a non-empty list, the `Math.max(len, 1)` guard in the denominator
is just `len`. -/
theorem div_max_len {α : Type} (s : ℚ) (l : List α) (h : l ≠ []) :
    s / max (l.length : ℚ) 1 = s / (l.length : ℚ) := by
  have h1 : 1 ≤ (l.length : ℚ) := by
    have := List.length_pos.mpr h
    exact_mod_cast this
  rw [max_eq_left h1]

/-- Every image mapping's confidence is its segment's importance, hence in
`[0, 1]` under the importance assumption. -/
theorem clientExplainImage_conf (env : JsEnv) (segments : List PromptSegment)
    (imageWidth imageHeight : ℚ)
    (himp : ∀ s ∈ segments, 0 ≤ s.metadata.importance ∧ s.metadata.importance ≤ 1) :
    ∀ m ∈ (clientExplainImage env segments imageWidth imageHeight).mappings,
      0 ≤ m.confidence ∧ m.confidence ≤ 1 := by
  intro m hm
  simp only [clientExplainImage] at hm
  obtain ⟨q, hq, rfl⟩ := List.mem_map.mp hm
  have hseg : q.2 ∈ segments := List.get?_mem (List.mem_enum_iff_get?.mp hq)
  exact himp q.2 hseg

/-- C6: explanation confidence bounds and mean.  Assuming every segment
importance lies in `[0, 1]` and every random draw lies in `[0, 1)`, every
mapping of `clientExplainText` and of `clientExplainImage` has confidence
in `[0, 1]`, and each `overallConfidence` is 0 when there are no mappings
and otherwise the arithmetic mean of the per-mapping confidences. -/
theorem explanation_confidence (env : JsEnv) (segments : List PromptSegment)
    (generatedText : String) (imageWidth imageHeight : ℚ)
    (hr : ∀ n, 0 ≤ env.rand n ∧ env.rand n < 1)
    (himp : ∀ s ∈ segments, 0 ≤ s.metadata.importance ∧ s.metadata.importance ≤ 1) :
    (∀ m ∈ (clientExplainText env segments generatedText).mappings,
        0 ≤ m.confidence ∧ m.confidence ≤ 1)
  ∧ ((clientExplainText env segments generatedText).mappings = [] →
        (clientExplainText env segments generatedText).overallConfidence = 0)
  ∧ ((clientExplainText env segments generatedText).mappings ≠ [] →
        (clientExplainText env segments generatedText).overallConfidence
          = ((clientExplainText env segments generatedText).mappings.map
              (fun m => m.confidence)).sum
            / ((clientExplainText env segments generatedText).mappings.length : ℚ))
  ∧ (∀ m ∈ (clientExplainImage env segments imageWidth imageHeight).mappings,
        0 ≤ m.confidence ∧ m.confidence ≤ 1)
  ∧ ((clientExplainImage env segments imageWidth imageHeight).mappings = [] →
        (clientExplainImage env segments imageWidth imageHeight).overallConfidence = 0)
  ∧ ((clientExplainImage env segments imageWidth imageHeight).mappings ≠ [] →
        (clientExplainImage env segments imageWidth imageHeight).overallConfidence
          = ((clientExplainImage env segments imageWidth imageHeight).mappings.map
              (fun m => m.confidence)).sum
            / ((clientExplainImage env segments imageWidth imageHeight).mappings.length : ℚ)) := by
  refine ⟨?_, ?_, ?_, clientExplainImage_conf env segments imageWidth imageHeight himp, ?_, ?_⟩
  · intro m hm
    exact segExplainLoop_bounds env (sentencesOf generatedText) hr segments [] 0
      (by simp) m hm
  · intro h
    have h' : (segExplainLoop env (sentencesOf generatedText) segments [] 0).1 = [] := h
    show ((segExplainLoop env (sentencesOf generatedText) segments [] 0).1).foldl
        (fun acc m => acc + m.confidence) 0
      / max (((segExplainLoop env (sentencesOf generatedText) segments [] 0).1).length : ℚ) 1
      = 0
    rw [h']
    norm_num
  · intro h
    show ((segExplainLoop env (sentencesOf generatedText) segments [] 0).1).foldl
        (fun acc m => acc + m.confidence) 0
      / max (((segExplainLoop env (sentencesOf generatedText) segments [] 0).1).length : ℚ) 1
      = (((segExplainLoop env (sentencesOf generatedText) segments [] 0).1).map
          (fun m => m.confidence)).sum
        / (((segExplainLoop env (sentencesOf generatedText) segments [] 0).1).length : ℚ)
    have h2 : (segExplainLoop env (sentencesOf generatedText) segments [] 0).1 ≠ [] := h
    rw [foldl_add_map (fun m : TextMapping => m.confidence) _ 0, zero_add, div_max_len _ _ h2]
  · intro h
    have h' : segments.enum.map (imageMappingFor env imageWidth imageHeight) = [] := h
    show ((segments.enum.map (imageMappingFor env imageWidth imageHeight)).foldl
        (fun acc m => acc + m.confidence) 0)
      / max (((segments.enum.map (imageMappingFor env imageWidth imageHeight)).length : ℚ)) 1
      = 0
    rw [h']
    norm_num
  · intro h
    show ((segments.enum.map (imageMappingFor env imageWidth imageHeight)).foldl
        (fun acc m => acc + m.confidence) 0)
      / max (((segments.enum.map (imageMappingFor env imageWidth imageHeight)).length : ℚ)) 1
      = (((segments.enum.map (imageMappingFor env imageWidth imageHeight)).map
          (fun m => m.confidence)).sum)
        / (((segments.enum.map (imageMappingFor env imageWidth imageHeight)).length : ℚ))
    have h2 : segments.enum.map (imageMappingFor env imageWidth imageHeight) ≠ [] := h
    rw [foldl_add_map (fun m : ImageMapping => m.confidence) _ 0, zero_add, div_max_len _ _ h2]

/-- Every scatter point that survives the canvas filter lies strictly
inside the canvas and its intensity lies in `[0, importance]`. -/
theorem heatPointAt_bounds (env : JsEnv) (imageWidth imageHeight centerX centerY imp : ℚ)
    (base i : ℕ) (hr0 : 0 ≤ env.rand (base + 2 * i + 1))
    (hw : 0 < imageWidth) (himp1 : 0 ≤ imp) (p : HeatPoint)
    (hp : heatPointAt env imageWidth imageHeight centerX centerY imp base i = some p) :
    (0 ≤ p.x ∧ p.x < imageWidth) ∧ (0 ≤ p.y ∧ p.y < imageHeight)
    ∧ 0 ≤ p.intensity ∧ p.intensity ≤ imp := by
  simp only [heatPointAt] at hp
  split at hp
  · rename_i hcond
    injection hp with hp
    subst hp
    obtain ⟨h1, h2, h3, h4⟩ := hcond
    refine ⟨⟨h1, h2⟩, ⟨h3, h4⟩, ?_, ?_⟩
    · exact mul_nonneg (le_max_left 0 _) himp1
    · have hden : (0:ℚ) < imageWidth * 0.3 := by positivity
      have hnum : (0:ℚ) ≤ env.rand (base + 2 * i + 1) * imageWidth * 0.3 := by
        have := hw.le
        positivity
      have hnd : (0:ℚ) ≤ env.rand (base + 2 * i + 1) * imageWidth * 0.3
          / (imageWidth * 0.3) := div_nonneg hnum hden.le
      have hmax : max 0 (1 - env.rand (base + 2 * i + 1) * imageWidth * 0.3
          / (imageWidth * 0.3)) ≤ 1 := by
        apply max_le
        · norm_num
        · linarith
      exact mul_le_of_le_one_left himp1 hmax
  · exact absurd hp (by simp)

/-- C10: heatmap points stay on canvas.  For importances in `[0, 1]`,
positive canvas dimensions and random draws in `[0, 1)`, every heatmap
point of every mapping of `clientExplainImage` satisfies
`0 ≤ x < imageWidth`, `0 ≤ y < imageHeight`, and has intensity in
`[0, importance]` of its owning segment; out-of-canvas points are dropped
(at most the 50 generated points remain, and none outside the bounds). -/
theorem clientExplainImage_heatmap (env : JsEnv) (segments : List PromptSegment)
    (imageWidth imageHeight : ℚ)
    (hr : ∀ n, 0 ≤ env.rand n ∧ env.rand n < 1)
    (hw : 0 < imageWidth) (hh : 0 < imageHeight)
    (himp : ∀ s ∈ segments, 0 ≤ s.metadata.importance ∧ s.metadata.importance ≤ 1) :
    ∀ m ∈ (clientExplainImage env segments imageWidth imageHeight).mappings,
      ∃ seg ∈ segments,
        m.segmentId = seg.id ∧ m.segmentText = seg.text
        ∧ m.confidence = seg.metadata.importance
        ∧ m.heatmap.length ≤ 50
        ∧ ∀ p ∈ m.heatmap,
            (0 ≤ p.x ∧ p.x < imageWidth) ∧ (0 ≤ p.y ∧ p.y < imageHeight)
            ∧ 0 ≤ p.intensity ∧ p.intensity ≤ seg.metadata.importance := by
  intro m hm
  simp only [clientExplainImage] at hm
  obtain ⟨q, hq, rfl⟩ := List.mem_map.mp hm
  have hseg : q.2 ∈ segments := List.get?_mem (List.mem_enum_iff_get?.mp hq)
  refine ⟨q.2, hseg, rfl, rfl, rfl, ?_, ?_⟩
  · show ((List.range 50).filterMap _).length ≤ 50
    exact le_trans (List.length_filterMap_le _ _) (by simp)
  · intro p hp
    have hp' : p ∈ (List.range 50).filterMap
        (heatPointAt env imageWidth imageHeight
          (imageWidth * (0.2 + qmod1 ((q.1 : ℚ) * 0.3 + 0.2) * 0.6))
          (imageHeight * (0.2 + qmod1 ((q.1 : ℚ) * 0.4 + 0.1) * 0.6))
          q.2.metadata.importance (100 * q.1)) := hp
    obtain ⟨i, hi, hpi⟩ := List.mem_filterMap.mp hp'
    exact heatPointAt_bounds env imageWidth imageHeight _ _ q.2.metadata.importance
      (100 * q.1) i (hr (100 * q.1 + 2 * i + 1)).1 hw (himp q.2 hseg).1 p hpi

/-- Witness for C6 at a concrete oracle, segment list, text and canvas. -/
theorem explanation_confidence_witness :
    ((∀ n, 0 ≤ env0.rand n ∧ env0.rand n < 1)
      ∧ (∀ s ∈ [mkSeg "a" "cat"],
          0 ≤ s.metadata.importance ∧ s.metadata.importance ≤ 1))
  ∧ ((∀ m ∈ (clientExplainText env0 [mkSeg "a" "cat"] "A cat sat.").mappings,
        0 ≤ m.confidence ∧ m.confidence ≤ 1)
    ∧ ((clientExplainText env0 [mkSeg "a" "cat"] "A cat sat.").mappings = [] →
        (clientExplainText env0 [mkSeg "a" "cat"] "A cat sat.").overallConfidence = 0)
    ∧ ((clientExplainText env0 [mkSeg "a" "cat"] "A cat sat.").mappings ≠ [] →
        (clientExplainText env0 [mkSeg "a" "cat"] "A cat sat.").overallConfidence
          = ((clientExplainText env0 [mkSeg "a" "cat"] "A cat sat.").mappings.map
              (fun m => m.confidence)).sum
            / ((clientExplainText env0 [mkSeg "a" "cat"] "A cat sat.").mappings.length : ℚ))
    ∧ (∀ m ∈ (clientExplainImage env0 [mkSeg "a" "cat"] 512 512).mappings,
        0 ≤ m.confidence ∧ m.confidence ≤ 1)
    ∧ ((clientExplainImage env0 [mkSeg "a" "cat"] 512 512).mappings = [] →
        (clientExplainImage env0 [mkSeg "a" "cat"] 512 512).overallConfidence = 0)
    ∧ ((clientExplainImage env0 [mkSeg "a" "cat"] 512 512).mappings ≠ [] →
        (clientExplainImage env0 [mkSeg "a" "cat"] 512 512).overallConfidence
          = ((clientExplainImage env0 [mkSeg "a" "cat"] 512 512).mappings.map
              (fun m => m.confidence)).sum
            / ((clientExplainImage env0 [mkSeg "a" "cat"] 512 512).mappings.length : ℚ))) := by
  have hr : ∀ n, 0 ≤ env0.rand n ∧ env0.rand n < 1 := fun n => ⟨le_refl 0, by norm_num [env0]⟩
  have himp : ∀ s ∈ [mkSeg "a" "cat"],
      0 ≤ s.metadata.importance ∧ s.metadata.importance ≤ 1 := by
    intro s hs
    rw [List.mem_singleton] at hs
    subst hs
    norm_num [mkSeg]
  exact ⟨⟨hr, himp⟩,
    explanation_confidence env0 [mkSeg "a" "cat"] "A cat sat." 512 512 hr himp⟩

/-- Witness for C10 at a concrete oracle, one segment and a 512x512
canvas. -/
theorem clientExplainImage_heatmap_witness :
    ((∀ n, 0 ≤ env0.rand n ∧ env0.rand n < 1)
      ∧ (0:ℚ) < 512 ∧ (0:ℚ) < 512
      ∧ (∀ s ∈ [mkSeg "a" "cat"],
          0 ≤ s.metadata.importance ∧ s.metadata.importance ≤ 1))
  ∧ (∀ m ∈ (clientExplainImage env0 [mkSeg "a" "cat"] 512 512).mappings,
      ∃ seg ∈ [mkSeg "a" "cat"],
        m.segmentId = seg.id ∧ m.segmentText = seg.text
        ∧ m.confidence = seg.metadata.importance
        ∧ m.heatmap.length ≤ 50
        ∧ ∀ p ∈ m.heatmap,
            (0 ≤ p.x ∧ p.x < 512) ∧ (0 ≤ p.y ∧ p.y < 512)
            ∧ 0 ≤ p.intensity ∧ p.intensity ≤ seg.metadata.importance) := by
  have hr : ∀ n, 0 ≤ env0.rand n ∧ env0.rand n < 1 := fun n => ⟨le_refl 0, by norm_num [env0]⟩
  have himp : ∀ s ∈ [mkSeg "a" "cat"],
      0 ≤ s.metadata.importance ∧ s.metadata.importance ≤ 1 := by
    intro s hs
    rw [List.mem_singleton] at hs
    subst hs
    norm_num [mkSeg]
  exact ⟨⟨hr, by norm_num, by norm_num, himp⟩,
    clientExplainImage_heatmap env0 [mkSeg "a" "cat"] 512 512 hr (by norm_num) (by norm_num)
      himp⟩

end PromptLens
